import Mathlib

/-!
Shallow embedding of font-kit src/id.rs: font identity construction from an
OpenType head table, revision decoding, CRC-32C hashing, provenance flags,
and textual rendering.

Bytes are modelled as Fin 256 (the Rust u8 type). Machine integers are
modelled as Nat and Int with explicit reduction modulo the word size.
A Rust operation that panics (out-of-bounds slice indexing) is modelled by
Option: none means the operation aborts instead of returning a value.
-/

namespace FontKit

/-- Reinterpret a bit pattern (reduced modulo 2 ^ 32) as a signed 32-bit value. -/
def toI32 (n : Nat) : Int :=
  if n % 4294967296 < 2147483648 then (n % 4294967296 : Int)
  else (n % 4294967296 : Int) - 4294967296

/-- Reinterpret a bit pattern (reduced modulo 2 ^ 16) as a signed 16-bit value. -/
def toI16 (n : Nat) : Int :=
  if n % 65536 < 32768 then (n % 65536 : Int) else (n % 65536 : Int) - 65536

/-- Bit pattern of a signed 32-bit value as an unsigned integer (twos-complement). -/
def u32Pattern (x : Int) : Nat := (x % 4294967296).toNat

/-- Rust cast to i16 of a signed 32-bit value: keep the low 16 bits, reinterpret as signed. -/
def asI16 (x : Int) : Int := toI16 (u32Pattern x)

/-- Rust arithmetic shift right on a signed value: floor division by a power of two. -/
def i32Shr (x : Int) (k : Nat) : Int := Int.fdiv x (2 ^ k)

/-- Rust shift left on i32: shift the 32-bit pattern left, truncate to 32 bits, reinterpret. -/
def i32Shl (x : Int) (k : Nat) : Int := toI32 (u32Pattern x <<< k)

/-- Rust bitwise or on i32, via the 32-bit patterns. -/
def i32Or (x y : Int) : Int := toI32 (u32Pattern x ||| u32Pattern y)

/-- Rust bitwise and on i32, via the 32-bit patterns. -/
def i32And (x y : Int) : Int := toI32 (u32Pattern x &&& u32Pattern y)

/-- Castagnoli polynomial in reflected form, as used by the crc crate table builder. -/
def CASTAGNOLI : Nat := 0x82f63b78

/-- One bit step of the table builder make_table of the crc crate. -/
def makeTableStep (poly value : Nat) : Nat :=
  if value &&& 1 = 1 then (value >>> 1) ^^^ poly else value >>> 1

/-- Entry i of the 256-entry Castagnoli table: eight bit steps applied to i. -/
def crcTableEntry (i : Nat) : Nat := Nat.iterate (makeTableStep CASTAGNOLI) 8 i

/-- Translation of crc32 update from the crc crate: complement, fold the
table step over the bytes, complement again. Values are 32-bit patterns. -/
def crc32_update (value : Nat) (bytes : List (Fin 256)) : Nat :=
  (List.foldl (fun v b => crcTableEntry ((v % 256) ^^^ b.val) ^^^ (v >>> 8))
    (value ^^^ 0xffffffff) bytes) ^^^ 0xffffffff

/-- Translation of crc32 checksum_castagnoli from the crc crate. -/
def checksum_castagnoli (bytes : List (Fin 256)) : Nat := crc32_update 0 bytes

/-- Translation of read_i32 in BigEndian order from the byteorder crate, on a
byte slice: fails (Err) when fewer than four bytes are available, otherwise
reads the first four bytes as a signed 32-bit big-endian integer. -/
def readI32BE : List (Fin 256) → Option Int
  | b0 :: b1 :: b2 :: b3 :: _ =>
      some (toI32 (b0.val * 16777216 + b1.val * 65536 + b2.val * 256 + b3.val))
  | _ => none

/-- FontRevision from src/id.rs: a single signed 32-bit integer. -/
structure FontRevision where
  raw : Int
  deriving DecidableEq

/-- Translation of FontRevision major: arithmetic shift right by 16, narrow to i16. -/
def FontRevision.major (r : FontRevision) : Int := asI16 (i32Shr r.raw 16)

/-- Translation of FontRevision minor: truncating narrow of the raw value to i16. -/
def FontRevision.minor (r : FontRevision) : Int := asI16 r.raw

/-- Translation of the Debug formatter of FontRevision: print major, then a
dot and minor only when minor is nonzero. -/
def FontRevision.debugFmt (r : FontRevision) : String :=
  toString r.major ++ (if r.minor ≠ 0 then "." ++ toString r.minor else "")

/-- Translation of the Display formatter of FontRevision: delegates to Debug. -/
def FontRevision.displayFmt (r : FontRevision) : String := r.debugFmt

/-- Bit for a name coming from a true PostScript name entry (bitflags FontIdFlags). -/
def FontIdFlags.HAS_POSTSCRIPT_NAME : Nat := 0x01

/-- Bit marking that the identity was derived from an OpenType head table. -/
def FontIdFlags.IS_OPENTYPE : Nat := 0x02

/-- Translation of bitflags insert: bitwise union of flag sets. -/
def FontIdFlags.insert (a b : Nat) : Nat := a ||| b

/-- FontId from src/id.rs: name, revision, content hash and provenance flags. -/
structure FontId where
  name : String
  revision : FontRevision
  hash : Nat
  flags : Nat
  deriving DecidableEq

/-- Translation of FontId from_opentype_head_table. The Rust code slices
head_table_data at index 4; that indexing panics when the span holds fewer
than four bytes, modelled here by none. Failure of the revision read on the
sliced tail is absorbed to a zero revision. -/
def FontId.from_opentype_head_table (name : String) (headTableData : List (Fin 256))
    (nameIsPostscript : Bool) : Option FontId :=
  let flags :=
    if nameIsPostscript then
      FontIdFlags.insert FontIdFlags.IS_OPENTYPE FontIdFlags.HAS_POSTSCRIPT_NAME
    else
      FontIdFlags.IS_OPENTYPE
  if headTableData.length < 4 then
    none
  else
    let revision :=
      match readI32BE (headTableData.drop 4) with
      | some r => FontRevision.mk r
      | none => FontRevision.mk 0
    let hash := checksum_castagnoli headTableData
    some { name := name, revision := revision, hash := hash, flags := flags }

/-- Translation of the Rust format specifier 08x applied to a u32: eight
lowercase hexadecimal digits, zero padded, most significant digit first. -/
def hex8 (n : Nat) : String :=
  String.mk ((List.range 8).map (fun i => Nat.digitChar (n / 16 ^ (7 - i) % 16)))

/-- Translation of the Debug formatter of FontId: name, revision and the hash
as eight lowercase hex digits, separated by slashes. -/
def FontId.debugFmt (id : FontId) : String :=
  id.name ++ "/" ++ id.revision.displayFmt ++ "/" ++ hex8 id.hash

/-- Translation of the Display formatter of FontId: delegates to Debug. -/
def FontId.displayFmt (id : FontId) : String := id.debugFmt

/-- Helper: the byteorder read fails exactly on spans shorter than four bytes. -/
theorem readI32BE_none_of_short (l : List (Fin 256)) (h : l.length < 4) :
    readI32BE l = none := by
  rcases l with _ | ⟨a, _ | ⟨b, _ | ⟨c, _ | ⟨d, t⟩⟩⟩⟩
  · rfl
  · rfl
  · rfl
  · rfl
  · simp only [List.length_cons] at h
    omega

/-- Helper: a successful construction, characterized for spans of length at
least four. -/
theorem from_opentype_eq_some (name : String) (b : List (Fin 256)) (p : Bool)
    (h : 4 ≤ b.length) :
    FontId.from_opentype_head_table name b p =
      some { name := name,
             revision := match readI32BE (b.drop 4) with
                         | some r => FontRevision.mk r
                         | none => FontRevision.mk 0,
             hash := checksum_castagnoli b,
             flags := if p then
                 FontIdFlags.insert FontIdFlags.IS_OPENTYPE FontIdFlags.HAS_POSTSCRIPT_NAME
               else FontIdFlags.IS_OPENTYPE } := by
  simp only [FontId.from_opentype_head_table]
  rw [if_neg (by omega)]

/-- Helper: construction aborts (the slice at offset 4 is out of bounds) on
spans shorter than four bytes. -/
theorem from_opentype_eq_none (name : String) (b : List (Fin 256)) (p : Bool)
    (h : b.length < 4) :
    FontId.from_opentype_head_table name b p = none := by
  simp only [FontId.from_opentype_head_table]
  rw [if_pos h]

/-- C1 (amended): for byte spans that can be sliced at offset 4 but cannot
supply four bytes there (length at least 4 and below 8), construction
succeeds and silently substitutes revision raw value 0; for spans of length
below 4 the slice itself is out of bounds and construction aborts, producing
no FontId at all. -/
theorem c1_truncated_revision_fallback (name : String) (b : List (Fin 256)) (p : Bool) :
    (4 ≤ b.length → b.length < 8 →
      ∃ id, FontId.from_opentype_head_table name b p = some id ∧ id.revision.raw = 0) ∧
    (b.length < 4 → FontId.from_opentype_head_table name b p = none) := by
  constructor
  · intro h4 h8
    refine ⟨_, from_opentype_eq_some name b p h4, ?_⟩
    have hd : (b.drop 4).length < 4 := by
      simp only [List.length_drop]
      omega
    rw [readI32BE_none_of_short _ hd]
  · intro hlt
    exact from_opentype_eq_none name b p hlt

/-- C1 counterexample: the empty span has length below 8, yet construction
does not succeed; the slice at offset 4 aborts and no FontId with a zero
revision is produced. -/
theorem c1_counterexample :
    ([] : List (Fin 256)).length < 8 ∧
    FontId.from_opentype_head_table "Helvetica" ([] : List (Fin 256)) false = none ∧
    ¬ ∃ id, FontId.from_opentype_head_table "Helvetica" ([] : List (Fin 256)) false = some id ∧
        id.revision.raw = 0 := by
  refine ⟨by decide, rfl, ?_⟩
  rintro ⟨id, h, -⟩
  simp [FontId.from_opentype_head_table] at h

/-- C1 witness: at the concrete spans [1, 2, 3, 4] (length 4, revision read
fails, absorbed to zero) and [9] (length 1, slice aborts). -/
theorem c1_truncated_revision_fallback_witness :
    (∃ id, FontId.from_opentype_head_table "a" ([1, 2, 3, 4] : List (Fin 256)) false = some id ∧
        id.revision.raw = 0) ∧
    FontId.from_opentype_head_table "a" ([9] : List (Fin 256)) false = none :=
  ⟨(c1_truncated_revision_fallback "a" ([1, 2, 3, 4] : List (Fin 256)) false).1
      (by decide) (by decide),
   (c1_truncated_revision_fallback "a" ([9] : List (Fin 256)) false).2 (by decide)⟩

/-- C9: for every byte span whose length is at least 4 but below 8,
construction succeeds, the revision raw value falls back to 0, and the hash
and flags are the normal ones for that span. -/
theorem c9_short_span_success (name : String) (b : List (Fin 256)) (p : Bool)
    (h4 : 4 ≤ b.length) (h8 : b.length < 8) :
    ∃ id, FontId.from_opentype_head_table name b p = some id ∧
      id.revision.raw = 0 ∧
      id.name = name ∧
      id.hash = checksum_castagnoli b ∧
      id.flags = (if p then
          FontIdFlags.insert FontIdFlags.IS_OPENTYPE FontIdFlags.HAS_POSTSCRIPT_NAME
        else FontIdFlags.IS_OPENTYPE) := by
  refine ⟨_, from_opentype_eq_some name b p h4, ?_, rfl, rfl, rfl⟩
  have hd : (b.drop 4).length < 4 := by
    simp only [List.length_drop]
    omega
  rw [readI32BE_none_of_short _ hd]

/-- C9 witness: at the concrete five-byte span [0, 0, 0, 0, 255]. -/
theorem c9_short_span_success_witness :
    ∃ id, FontId.from_opentype_head_table "f" ([0, 0, 0, 0, 255] : List (Fin 256)) true = some id ∧
      id.revision.raw = 0 ∧
      id.name = "f" ∧
      id.hash = checksum_castagnoli ([0, 0, 0, 0, 255] : List (Fin 256)) ∧
      id.flags = (if true then
          FontIdFlags.insert FontIdFlags.IS_OPENTYPE FontIdFlags.HAS_POSTSCRIPT_NAME
        else FontIdFlags.IS_OPENTYPE) :=
  c9_short_span_success "f" ([0, 0, 0, 0, 255] : List (Fin 256)) true (by decide) (by decide)

/-- C2: for every byte span of length at least 8, construction succeeds and
the revision raw value is the signed 32-bit big-endian integer formed from
the bytes at offsets 4 through 7, with no range validation applied. -/
theorem c2_revision_big_endian (name : String) (b : List (Fin 256)) (p : Bool)
    (h : 8 ≤ b.length) :
    ∃ id, FontId.from_opentype_head_table name b p = some id ∧
      id.revision.raw = toI32 ((b.getD 4 0).val * 16777216 + (b.getD 5 0).val * 65536 +
        (b.getD 6 0).val * 256 + (b.getD 7 0).val) := by
  rcases b with _ | ⟨a0, _ | ⟨a1, _ | ⟨a2, _ | ⟨a3, _ | ⟨a4, _ | ⟨a5, _ | ⟨a6, _ | ⟨a7, t⟩⟩⟩⟩⟩⟩⟩⟩ <;>
    simp only [List.length_nil, List.length_cons] at h
  · omega
  · omega
  · omega
  · omega
  · omega
  · omega
  · omega
  · omega
  · refine ⟨_, from_opentype_eq_some _ _ _ (by simp only [List.length_cons]; omega), ?_⟩
    simp [readI32BE, List.getD]

/-- C2 witness: at a concrete eight-byte span whose bytes 4 through 7 are
00 01 00 00, giving revision raw value 65536. -/
theorem c2_revision_big_endian_witness :
    ∃ id, FontId.from_opentype_head_table "w" ([7, 7, 7, 7, 0, 1, 0, 0] : List (Fin 256)) false =
        some id ∧
      id.revision.raw = toI32 ((([7, 7, 7, 7, 0, 1, 0, 0] : List (Fin 256)).getD 4 0).val * 16777216 +
        (([7, 7, 7, 7, 0, 1, 0, 0] : List (Fin 256)).getD 5 0).val * 65536 +
        (([7, 7, 7, 7, 0, 1, 0, 0] : List (Fin 256)).getD 6 0).val * 256 +
        (([7, 7, 7, 7, 0, 1, 0, 0] : List (Fin 256)).getD 7 0).val) :=
  c2_revision_big_endian "w" ([7, 7, 7, 7, 0, 1, 0, 0] : List (Fin 256)) false (by decide)

/-- C3: whenever construction completes, the hash field is the CRC-32
Castagnoli checksum of exactly the entire supplied span, including the four
bytes consumed for revision decoding. -/
theorem c3_hash_whole_span (name : String) (b : List (Fin 256)) (p : Bool) (id : FontId)
    (h : FontId.from_opentype_head_table name b p = some id) :
    id.hash = checksum_castagnoli b := by
  by_cases hl : b.length < 4
  · rw [from_opentype_eq_none name b p hl] at h
    exact absurd h (by simp)
  · rw [from_opentype_eq_some name b p (by omega)] at h
    cases h
    rfl

/-- C3 witness: at the concrete span [5, 6, 7, 8]. -/
theorem c3_hash_whole_span_witness :
    ({ name := "x", revision := FontRevision.mk 0,
       hash := checksum_castagnoli ([5, 6, 7, 8] : List (Fin 256)),
       flags := 3 } : FontId).hash = checksum_castagnoli ([5, 6, 7, 8] : List (Fin 256)) :=
  c3_hash_whole_span "x" ([5, 6, 7, 8] : List (Fin 256)) true _ (by decide)

/-- C4: whenever construction completes, the flags are exactly the union of
IS_OPENTYPE and HAS_POSTSCRIPT_NAME when the name is a PostScript name and
exactly IS_OPENTYPE otherwise; IS_OPENTYPE is always contained and the flag
set always stays inside the two defined bits. -/
theorem c4_flags (name : String) (b : List (Fin 256)) (p : Bool) (id : FontId)
    (h : FontId.from_opentype_head_table name b p = some id) :
    id.flags = (if p then
        FontIdFlags.insert FontIdFlags.IS_OPENTYPE FontIdFlags.HAS_POSTSCRIPT_NAME
      else FontIdFlags.IS_OPENTYPE) ∧
    id.flags &&& FontIdFlags.IS_OPENTYPE = FontIdFlags.IS_OPENTYPE ∧
    id.flags ||| (FontIdFlags.IS_OPENTYPE ||| FontIdFlags.HAS_POSTSCRIPT_NAME) =
      FontIdFlags.IS_OPENTYPE ||| FontIdFlags.HAS_POSTSCRIPT_NAME := by
  have h1 : id.flags = (if p then
      FontIdFlags.insert FontIdFlags.IS_OPENTYPE FontIdFlags.HAS_POSTSCRIPT_NAME
    else FontIdFlags.IS_OPENTYPE) := by
    by_cases hl : b.length < 4
    · rw [from_opentype_eq_none name b p hl] at h
      exact absurd h (by simp)
    · rw [from_opentype_eq_some name b p (by omega)] at h
      cases h
      rfl
  refine ⟨h1, ?_, ?_⟩ <;> rw [h1] <;> cases p <;> decide

/-- C4 witness: at the concrete span [1, 1, 1, 1] with a PostScript name. -/
theorem c4_flags_witness :
    ({ name := "y", revision := FontRevision.mk 0,
       hash := checksum_castagnoli ([1, 1, 1, 1] : List (Fin 256)),
       flags := 3 } : FontId).flags = (if true then
        FontIdFlags.insert FontIdFlags.IS_OPENTYPE FontIdFlags.HAS_POSTSCRIPT_NAME
      else FontIdFlags.IS_OPENTYPE) ∧
    (3 : Nat) &&& FontIdFlags.IS_OPENTYPE = FontIdFlags.IS_OPENTYPE ∧
    (3 : Nat) ||| (FontIdFlags.IS_OPENTYPE ||| FontIdFlags.HAS_POSTSCRIPT_NAME) =
      FontIdFlags.IS_OPENTYPE ||| FontIdFlags.HAS_POSTSCRIPT_NAME :=
  c4_flags "y" ([1, 1, 1, 1] : List (Fin 256)) true _ (by decide)

/-- C5: the textual rendering of a revision is the major component alone when
minor is zero and major dot minor otherwise, with the stated concrete values:
raw 0x00010000 renders as 1, raw 0x00010005 renders as 1.5, raw 0 renders as 0. -/
theorem c5_revision_rendering :
    (∀ r : FontRevision, r.debugFmt =
      if r.minor = 0 then toString r.major
      else toString r.major ++ "." ++ toString r.minor) ∧
    (FontRevision.mk (toI32 0x00010000)).debugFmt = "1" ∧
    (FontRevision.mk (toI32 0x00010005)).debugFmt = "1.5" ∧
    (FontRevision.mk 0).debugFmt = "0" := by
  refine ⟨?_, by decide, by decide, by decide⟩
  intro r
  unfold FontRevision.debugFmt
  by_cases hm : r.minor = 0
  · simp [hm]
  · rw [if_neg hm, if_pos hm, String.append_assoc]

/-- Helper: every digit character produced from a value below 16 lies in the
lowercase hexadecimal alphabet. -/
theorem digitChar_mem_hex :
    ∀ m < 16, ("0123456789abcdef".toList.contains (Nat.digitChar m)) = true := by
  decide

/-- C6: the developer-facing and user-facing renderings of a FontId coincide,
the single canonical form is name, revision and hash separated by slashes
with the hash printed as exactly eight lowercase zero-padded hexadecimal
digits, and the two renderings of a FontRevision coincide as well. -/
theorem c6_canonical_rendering :
    (∀ id : FontId, id.displayFmt = id.debugFmt) ∧
    (∀ r : FontRevision, r.displayFmt = r.debugFmt) ∧
    (∀ id : FontId, id.debugFmt =
      id.name ++ "/" ++ id.revision.displayFmt ++ "/" ++ hex8 id.hash) ∧
    (∀ n : Nat, (hex8 n).length = 8) ∧
    (∀ n : Nat, (hex8 n).toList.all
      (fun c => ("0123456789abcdef".toList.contains c)) = true) := by
  refine ⟨fun id => rfl, fun r => rfl, fun id => rfl, ?_, ?_⟩
  · intro n
    show (List.map _ (List.range 8)).length = 8
    simp
  · intro n
    show ((List.range 8).map (fun i => Nat.digitChar (n / 16 ^ (7 - i) % 16))).all
        (fun c => ("0123456789abcdef".toList.contains c)) = true
    simp only [List.all_eq_true, List.mem_map]
    rintro c ⟨i, hi, rfl⟩
    exact digitChar_mem_hex _ (Nat.mod_lt _ (by norm_num))

/-- C8: construction is a pure, deterministic function of its three inputs;
two invocations on equal inputs give equal outcomes, and any two produced
identities agree in every field. -/
theorem c8_deterministic (n1 n2 : String) (b1 b2 : List (Fin 256)) (p1 p2 : Bool)
    (hn : n1 = n2) (hb : b1 = b2) (hp : p1 = p2) :
    FontId.from_opentype_head_table n1 b1 p1 = FontId.from_opentype_head_table n2 b2 p2 ∧
    (∀ id1 id2, FontId.from_opentype_head_table n1 b1 p1 = some id1 →
      FontId.from_opentype_head_table n2 b2 p2 = some id2 →
      id1.name = id2.name ∧ id1.revision.raw = id2.revision.raw ∧
        id1.hash = id2.hash ∧ id1.flags = id2.flags) := by
  subst hn hb hp
  refine ⟨rfl, ?_⟩
  intro id1 id2 h1 h2
  rw [h1] at h2
  cases h2
  exact ⟨rfl, rfl, rfl, rfl⟩

/-- C8 witness: two constructions from the identical concrete inputs agree in
every field. -/
theorem c8_deterministic_witness :
    ({ name := "Helvetica", revision := FontRevision.mk 0,
       hash := checksum_castagnoli ([0, 0, 0, 0] : List (Fin 256)), flags := 2 } : FontId).name =
      ({ name := "Helvetica", revision := FontRevision.mk 0,
         hash := checksum_castagnoli ([0, 0, 0, 0] : List (Fin 256)), flags := 2 } : FontId).name ∧
    ({ name := "Helvetica", revision := FontRevision.mk 0,
       hash := checksum_castagnoli ([0, 0, 0, 0] : List (Fin 256)), flags := 2 } : FontId).revision.raw =
      ({ name := "Helvetica", revision := FontRevision.mk 0,
         hash := checksum_castagnoli ([0, 0, 0, 0] : List (Fin 256)), flags := 2 } : FontId).revision.raw ∧
    ({ name := "Helvetica", revision := FontRevision.mk 0,
       hash := checksum_castagnoli ([0, 0, 0, 0] : List (Fin 256)), flags := 2 } : FontId).hash =
      ({ name := "Helvetica", revision := FontRevision.mk 0,
         hash := checksum_castagnoli ([0, 0, 0, 0] : List (Fin 256)), flags := 2 } : FontId).hash ∧
    ({ name := "Helvetica", revision := FontRevision.mk 0,
       hash := checksum_castagnoli ([0, 0, 0, 0] : List (Fin 256)), flags := 2 } : FontId).flags =
      ({ name := "Helvetica", revision := FontRevision.mk 0,
         hash := checksum_castagnoli ([0, 0, 0, 0] : List (Fin 256)), flags := 2 } : FontId).flags :=
  (c8_deterministic "Helvetica" "Helvetica" ([0, 0, 0, 0] : List (Fin 256))
      ([0, 0, 0, 0] : List (Fin 256)) false false rfl rfl rfl).2 _ _ (by decide) (by decide)

/-- C10: when the minor component is negative the rendered text embeds the
signed minor value with its minus sign after the dot; raw value 0x0001FFFF
has major 1, minor -1 and renders as the text 1.-1. -/
theorem c10_negative_minor_rendering :
    (∀ r : FontRevision, r.minor < 0 →
      r.debugFmt = toString r.major ++ "." ++ toString r.minor) ∧
    (FontRevision.mk (toI32 0x0001FFFF)).major = 1 ∧
    (FontRevision.mk (toI32 0x0001FFFF)).minor = -1 ∧
    (FontRevision.mk (toI32 0x0001FFFF)).debugFmt = "1.-1" := by
  refine ⟨?_, by decide, by decide, by decide⟩
  intro r hneg
  unfold FontRevision.debugFmt
  rw [if_pos (show r.minor ≠ 0 by omega), String.append_assoc]

/-- C10 witness: the rendering equation at the concrete raw value 131071. -/
theorem c10_negative_minor_rendering_witness :
    (FontRevision.mk 131071).debugFmt =
      toString (FontRevision.mk 131071).major ++ "." ++ toString (FontRevision.mk 131071).minor :=
  c10_negative_minor_rendering.1 (FontRevision.mk 131071) (by decide)

/-- Helper: masking with 65535 keeps exactly the low 16 bits. -/
theorem land_65535 (x : Nat) : x &&& 65535 = x % 65536 := by
  have h := Nat.and_pow_two_sub_one_eq_mod x 16
  norm_num at h
  exact h

/-- Helper: a bitwise or of disjoint halves, a multiple of 65536 against a
value below 65536, is their sum. -/
theorem lor_mul_pow16_add (hi lo : Nat) (hlo : lo < 65536) :
    (hi * 65536) ||| lo = hi * 65536 + lo := by
  apply Nat.eq_of_testBit_eq
  intro j
  rw [Nat.testBit_lor]
  have p2 : (0 : Nat) < 2 ^ j := pow_pos (by norm_num) j
  rcases Nat.lt_or_ge j 16 with hj | hj
  · have hd : (65536 : Nat) = 2 ^ j * 2 ^ (16 - j) := by
      rw [← pow_add]
      have h16 : j + (16 - j) = 16 := by omega
      rw [h16]
      norm_num
    have hsplit : (16 : Nat) - j = (15 - j) + 1 := by omega
    have heven : (2 : Nat) ^ (16 - j) = 2 ^ (15 - j) * 2 := by
      rw [hsplit, pow_succ]
    have hhi : (hi * 65536).testBit j = false := by
      rw [Nat.testBit_to_div_mod]
      have hq : hi * 65536 / 2 ^ j = hi * 2 ^ (16 - j) := by
        rw [hd, show hi * (2 ^ j * 2 ^ (16 - j)) = hi * 2 ^ (16 - j) * 2 ^ j by ring,
          Nat.mul_div_cancel _ p2]
      rw [hq, heven, show hi * (2 ^ (15 - j) * 2) = hi * 2 ^ (15 - j) * 2 by ring]
      simp [Nat.mul_mod_left]
    have hsum : (hi * 65536 + lo).testBit j = lo.testBit j := by
      rw [Nat.testBit_to_div_mod, Nat.testBit_to_div_mod]
      have hq : (hi * 65536 + lo) / 2 ^ j = lo / 2 ^ j + hi * 2 ^ (16 - j) := by
        rw [hd, show hi * (2 ^ j * 2 ^ (16 - j)) + lo = lo + hi * 2 ^ (16 - j) * 2 ^ j by ring,
          Nat.add_mul_div_right _ _ p2]
      rw [hq, heven,
        show lo / 2 ^ j + hi * (2 ^ (15 - j) * 2) = lo / 2 ^ j + hi * 2 ^ (15 - j) * 2 by ring,
        Nat.add_mul_mod_self_right]
    rw [hhi, hsum, Bool.false_or]
  · have hd : (2 : Nat) ^ j = 65536 * 2 ^ (j - 16) := by
      rw [show (65536 : Nat) = 2 ^ 16 by norm_num, ← pow_add]
      have h16 : 16 + (j - 16) = j := by omega
      rw [h16]
    have hlo2 : lo.testBit j = false :=
      Nat.testBit_eq_false_of_lt (lt_of_lt_of_le hlo (by
        calc (65536 : Nat) = 2 ^ 16 := by norm_num
        _ ≤ 2 ^ j := Nat.pow_le_pow_right (by norm_num) hj))
    have hhi : (hi * 65536).testBit j = hi.testBit (j - 16) := by
      rw [Nat.testBit_to_div_mod, Nat.testBit_to_div_mod]
      have hq : hi * 65536 / 2 ^ j = hi / 2 ^ (j - 16) := by
        rw [hd, ← Nat.div_div_eq_div_mul, Nat.mul_div_cancel _ (by norm_num : (0 : Nat) < 65536)]
      rw [hq]
    have hsum : (hi * 65536 + lo).testBit j = hi.testBit (j - 16) := by
      rw [Nat.testBit_to_div_mod, Nat.testBit_to_div_mod]
      have hq : (hi * 65536 + lo) / 2 ^ j = hi / 2 ^ (j - 16) := by
        rw [hd, ← Nat.div_div_eq_div_mul,
          show hi * 65536 + lo = lo + hi * 65536 by ring,
          Nat.add_mul_div_right _ _ (by norm_num : (0 : Nat) < 65536),
          Nat.div_eq_of_lt hlo, Nat.zero_add]
      rw [hq]
    rw [hhi, hsum, hlo2, Bool.or_false]

/-- Helper: masking an i32 with 65535 reduces its pattern modulo 65536. -/
theorem i32And_65535 (x : Int) : i32And x 65535 = toI32 (u32Pattern x % 65536) := by
  simp only [i32And]
  have h : u32Pattern 65535 = 65535 := rfl
  rw [h, land_65535]

/-- C7: for every FontRevision holding a valid signed 32-bit raw value,
recombining the derived accessors reconstructs the stored value under
32-bit arithmetic: raw equals major shifted left by 16, bitwise or minor
masked to its low 16 bits. -/
theorem c7_raw_reconstruction (r : FontRevision)
    (h1 : -2147483648 ≤ r.raw) (h2 : r.raw < 2147483648) :
    r.raw = i32Or (i32Shl r.major 16) (i32And r.minor 65535) := by
  have hfdiv : r.raw.fdiv (2 ^ 16) = r.raw / 65536 := by
    rw [Int.fdiv_eq_ediv _ (by norm_num)]
    norm_num
  have hB : u32Pattern (i32And r.minor 65535) = (r.raw % 4294967296).toNat % 65536 := by
    rw [i32And_65535]
    simp only [FontRevision.minor, asI16, toI16, toI32, u32Pattern]
    split_ifs <;> omega
  have hA : u32Pattern (i32Shl r.major 16) =
      (r.raw % 4294967296).toNat / 65536 * 65536 := by
    simp only [FontRevision.major, asI16, i32Shr, hfdiv, i32Shl, toI16, toI32, u32Pattern,
      Nat.shiftLeft_eq]
    norm_num
    split_ifs <;> omega
  rw [i32Or, hA, hB,
    lor_mul_pow16_add _ _ (Nat.mod_lt _ (by norm_num))]
  simp only [toI32]
  split_ifs <;> omega

/-- C7 witness: at the concrete raw value -1 (pattern 0xFFFFFFFF, major -1,
minor -1). -/
theorem c7_raw_reconstruction_witness :
    (FontRevision.mk (-1)).raw =
      i32Or (i32Shl (FontRevision.mk (-1)).major 16) (i32And (FontRevision.mk (-1)).minor 65535) :=
  c7_raw_reconstruction (FontRevision.mk (-1)) (by decide) (by decide)

end FontKit
